import Mathlib

/-!
# Verification of the adaptive feedback-aware Dijkstra engine

Shallow embedding of `graph/adaptive_dijkstra.py` (class `AdaptiveDijkstra`).
Python floats are modelled as real numbers; the float literal `inf` used for
unreached tentative costs is modelled by `⊤` in `WithTop ℝ`.  Python dicts
keyed by node id are modelled as functions into `Option`, where `none` stands
for an absent key (a lookup of an absent key raises `KeyError`, modelled by
the `Except` error monad).  The string edge key — the Python format string
joining the two node ids with a dash — is modelled by the pair
`(from, to)`: on natural-number node ids the formatted string contains
exactly one dash, so the encoding is injective and the pair is a faithful
key.
-/

namespace AdaptiveDijkstra

/-- Static road metadata as read by `_calculate_adaptive_cost`
(the `metadata.get` reads of `traffic_factor` and `quality`, both defaulting
to 1.0); the two fields the engine consumes are modelled directly. -/
structure Metadata where
  traffic_factor : ℝ
  quality : ℝ

/-- Modelled from the spec: the external graph collaborator `RoadGraph`
(module `graph.road_graph`, outside the engine source).  Per §6 it
exposes `all_node_ids()` (here `nodes`, matching how the engine reads
the keys of `self.graph.nodes`) and `neighbors(node)` (here `get_neighbors`),
returning a finite sequence of `(neighbor_node, base_distance, metadata)`. -/
structure RoadGraph where
  nodes : List ℕ
  get_neighbors : ℕ → List (ℕ × ℝ × Metadata)

/-- One entry of the edge-history store (`self.edge_history[edge_key]`). -/
structure EdgeHistoryRecord where
  usage_count : ℕ
  average_delay : ℝ
  failure_rate : ℝ
  total_delay : ℝ
  total_failures : ℕ

/-- The edge-history store: a dict from edge key `(from, to)` to record;
`none` = key absent. -/
abbrev EdgeHistory := ℕ × ℕ → Option EdgeHistoryRecord

/-- Policy constant `HISTORICAL_WEIGHT = 0.3`. -/
def HISTORICAL_WEIGHT : ℝ := 0.3

/-- Policy constant `DECAY_FACTOR = 0.95`. -/
def DECAY_FACTOR : ℝ := 0.95

/-- Policy constant `MIN_SAMPLES = 3`. -/
def MIN_SAMPLES : ℕ := 3

/-- The vehicle-penalty step function of `_calculate_adaptive_cost`
(lines 206–211): a function of road quality and the vehicle-type string. -/
noncomputable def vehicle_penalty (vehicle_type : String) (road_quality : ℝ) : ℝ :=
  if road_quality ≥ 0.85 then (if vehicle_type = "boda" then 1.0 else 1.0)
  else if road_quality ≥ 0.75 then (if vehicle_type = "boda" then 1.1 else 1.3)
  else (if vehicle_type = "boda" then 1.3 else 1.8)

/-- The static base cost `base_distance * traffic_factor * vehicle_penalty`
(line 214). -/
noncomputable def base_cost (vehicle_type : String) (base_distance : ℝ)
    (metadata : Metadata) : ℝ :=
  base_distance * metadata.traffic_factor * vehicle_penalty vehicle_type metadata.quality

/-- Model of `AdaptiveDijkstra._calculate_adaptive_cost` (lines 201–242).
The first component is the returned cost; the second is `true` exactly when
the method increments the `history_influenced` entry of `self.stats`. -/
noncomputable def calculate_adaptive_cost (vehicle_type : String)
    (edge_history : EdgeHistory) (from_node to_node : ℕ)
    (base_distance : ℝ) (metadata : Metadata) : ℝ × Bool :=
  let bc := base_cost vehicle_type base_distance metadata
  match edge_history (from_node, to_node) with
  | none => (bc, false)
  | some history =>
    if history.usage_count ≥ MIN_SAMPLES then
      let avg_delay := history.average_delay
      let failure_rate := history.failure_rate
      let confidence := min ((history.usage_count : ℝ) / 10.0) 1.0
      let historical_penalty :=
        1.0 + HISTORICAL_WEIGHT * confidence * (avg_delay + failure_rate * 2.0)
      (bc * historical_penalty, true)
    else (bc, false)

/-- The record created when an edge is first seen by
`record_route_feedback` (lines 273–280): all counters zero. -/
def init_record : EdgeHistoryRecord :=
  { usage_count := 0, average_delay := 0, failure_rate := 0,
    total_delay := 0, total_failures := 0 }

/-- The delay factor computed at lines 262–264:
`delay = (actual - expected) / expected if expected > 0 else 0`,
then clamped with `delay = max(0, delay)`. -/
noncomputable def route_delay (actual_time expected_time : ℝ) : ℝ :=
  max 0 (if expected_time > 0 then (actual_time - expected_time) / expected_time else 0)

/-- The per-edge statistics update of `record_route_feedback`
(lines 272–298) for one edge `(from_node, to_node)` and one
already-computed delay value. -/
noncomputable def feedback_update (delay : ℝ) (success : Bool)
    (edge_history : EdgeHistory) (from_node to_node : ℕ) : EdgeHistory :=
  let history := (edge_history (from_node, to_node)).getD init_record
  let old_count := history.usage_count
  let new_count := old_count + 1
  let decay := DECAY_FACTOR ^ ((1 : ℝ) / ((new_count : ℝ) + 1))
  let total_delay := history.total_delay * decay + delay
  let average_delay := total_delay / (new_count : ℝ)
  let total_failures :=
    if success then history.total_failures else history.total_failures + 1
  let failure_rate := (total_failures : ℝ) / (new_count : ℝ)
  Function.update edge_history (from_node, to_node)
    (some { usage_count := new_count, average_delay := average_delay,
            failure_rate := failure_rate, total_delay := total_delay,
            total_failures := total_failures })

/-- Model of `AdaptiveDijkstra.record_route_feedback` (lines 244–304): compute the
clamped delay once, then fold the per-edge update over the consecutive
pairs of the path (the `for i in range(len(path) - 1)` loop).  The final
`_save_history()` disk write is outside the in-memory state modelled here. -/
noncomputable def record_route_feedback (edge_history : EdgeHistory)
    (path : List ℕ) (actual_time expected_time : ℝ) (success : Bool) : EdgeHistory :=
  let delay := route_delay actual_time expected_time
  (path.zip path.tail).foldl
    (fun h p => feedback_update delay success h p.1 p.2) edge_history

/-- Python exceptions that the engine can raise: a dict lookup of an absent
key (`KeyError`).  `fuelExhausted` is a modelling artifact of the bounded
recursion used for the two unbounded Python loops; theorems about the engine
prove it unreachable for the runs they describe. -/
inductive PyErr where
  | keyError : PyErr
  | fuelExhausted : PyErr
deriving DecidableEq

/-- The statistics dict reset at the top of `find_optimal_path`
(lines 101–107). -/
structure Stats where
  nodes_explored : ℕ
  edges_examined : ℕ
  path_length : ℕ
  history_influenced : ℕ
  explored_edges : List (ℕ × ℕ)
deriving DecidableEq

/-- The fresh statistics dict. -/
def stats0 : Stats :=
  { nodes_explored := 0, edges_examined := 0, path_length := 0,
    history_influenced := 0, explored_edges := [] }

/-- The mutable state of the search loop: the `costs` dict, the `parents`
dict, the priority queue and the visited set.  Dict values: `costs` maps a
present key to its tentative cost (`⊤` = the float infinity); `parents` maps a
present key to `none` (Python `None`) or `some u` (parent `u`). -/
structure LoopState where
  costs : ℕ → Option (WithTop ℝ)
  parents : ℕ → Option (Option ℕ)
  pq : List (WithTop ℝ × ℕ)
  visited : Finset ℕ
  stats : Stats

/-- The lexicographic order on heap entries `(cost, node_id)` that Python
uses to compare tuples inside `heapq`. -/
def key_le (a b : WithTop ℝ × ℕ) : Prop :=
  a.1 < b.1 ∨ (a.1 = b.1 ∧ a.2 ≤ b.2)

noncomputable instance : DecidablePred fun p : (WithTop ℝ × ℕ) × (WithTop ℝ × ℕ) => key_le p.1 p.2 :=
  fun _ => by unfold key_le; infer_instance

noncomputable instance (a b : WithTop ℝ × ℕ) : Decidable (key_le a b) := by
  unfold key_le; infer_instance

/-- Model of `heapq.heappop`: remove and return the least entry of the queue under
the lexicographic tuple order (`none` on an empty queue).  Entries are
compared by `key_le`; among equal minima the earliest is taken, which is
observationally identical since equal keys are equal values. -/
noncomputable def popMin : List (WithTop ℝ × ℕ) →
    Option ((WithTop ℝ × ℕ) × List (WithTop ℝ × ℕ))
  | [] => none
  | x :: xs =>
    match popMin xs with
    | none => some (x, [])
    | some (m, rest) => if key_le x m then some (x, xs) else some (m, x :: rest)

/-- The body of the `for neighbor, base_dist, metadata in
self.graph.get_neighbors(current_node)` loop (lines 137–154), processing a
single neighbour triple. -/
noncomputable def processEdge (vehicle_type : String) (edge_history : EdgeHistory)
    (current_node : ℕ) (s : LoopState) (e : ℕ × ℝ × Metadata) :
    Except PyErr LoopState :=
  let neighbor := e.1
  let base_dist := e.2.1
  let metadata := e.2.2
  let s := { s with stats := { s.stats with
      edges_examined := s.stats.edges_examined + 1,
      explored_edges := s.stats.explored_edges ++ [(current_node, neighbor)] } }
  if neighbor ∈ s.visited then .ok s
  else
    let ec := calculate_adaptive_cost vehicle_type edge_history
        current_node neighbor base_dist metadata
    let s := if ec.2 then
        { s with stats := { s.stats with
            history_influenced := s.stats.history_influenced + 1 } }
      else s
    match s.costs current_node with
    | none => .error .keyError
    | some current_cost =>
      let new_cost := current_cost + (ec.1 : WithTop ℝ)
      match s.costs neighbor with
      | none => .error .keyError
      | some neighbor_cost =>
        if new_cost < neighbor_cost then
          .ok { s with
            costs := Function.update s.costs neighbor (some new_cost),
            parents := Function.update s.parents neighbor (some (some current_node)),
            pq := s.pq ++ [(new_cost, neighbor)] }
        else .ok s

/-- The whole neighbour loop: fold `processEdge` over the neighbour list,
propagating a `KeyError`. -/
noncomputable def processEdges (vehicle_type : String) (edge_history : EdgeHistory)
    (current_node : ℕ) : List (ℕ × ℝ × Metadata) → LoopState → Except PyErr LoopState
  | [], s => .ok s
  | e :: es, s =>
    match processEdge vehicle_type edge_history current_node s e with
    | .error err => .error err
    | .ok s' => processEdges vehicle_type edge_history current_node es s'

/-- The `while pq:` loop of `find_optimal_path` (lines 123–154), by fuel
recursion: pop the least entry, skip already-visited nodes, stop at the
goal (`break`), otherwise explore the neighbours and continue. -/
noncomputable def dijkstraLoop (g : RoadGraph) (vehicle_type : String)
    (edge_history : EdgeHistory) (endN : ℕ) :
    ℕ → LoopState → Except PyErr LoopState
  | 0, _ => .error .fuelExhausted
  | fuel + 1, s =>
    match popMin s.pq with
    | none => .ok s
    | some ((_, current_node), pq') =>
      let s := { s with pq := pq' }
      if current_node ∈ s.visited then
        dijkstraLoop g vehicle_type edge_history endN fuel s
      else
        let s := { s with visited := insert current_node s.visited,
                          stats := { s.stats with
                            nodes_explored := s.stats.nodes_explored + 1 } }
        if current_node = endN then .ok s
        else
          match processEdges vehicle_type edge_history current_node
              (g.get_neighbors current_node) s with
          | .error err => .error err
          | .ok s' => dijkstraLoop g vehicle_type edge_history endN fuel s'

/-- The `while current is not None:` walk of `_reconstruct_path`
(lines 324–329), by fuel recursion: append the current node, follow its
parent link (`KeyError` on an absent key), reverse at the end. -/
def walkParents (parents : ℕ → Option (Option ℕ)) :
    ℕ → Option ℕ → List ℕ → Except PyErr (List ℕ)
  | 0, _, _ => .error .fuelExhausted
  | _ + 1, none, acc => .ok acc.reverse
  | fuel + 1, some current, acc =>
    match parents current with
    | none => .error .keyError
    | some p => walkParents parents fuel p (acc ++ [current])

/-- Model of `AdaptiveDijkstra._reconstruct_path` (lines 319–330); the
argument `walk_fuel` bounds the parent-link walk (the Python loop is
unbounded; the engine passes a bound larger than any acyclic parent
chain). -/
def reconstruct_path (walk_fuel : ℕ) (parents : ℕ → Option (Option ℕ))
    (start endN : ℕ) : Except PyErr (List ℕ) :=
  match parents endN with
  | none => .error .keyError
  | some p =>
    if p = none ∧ endN ≠ start then .ok []
    else walkParents parents walk_fuel (some endN) []

/-- Model of `AdaptiveDijkstra.find_optimal_path` (lines 84–170).  Returns
`(path, total_cost, stats)`.  The loop fuel `(E + 1) * (|nodes| + 1) + 2`
(where `E` sums the out-degrees over `start :: nodes`) strictly exceeds the
number of loop iterations, as proved below in `dijkstraLoop_spec`. -/
noncomputable def find_optimal_path (g : RoadGraph) (vehicle_type : String)
    (edge_history : EdgeHistory) (start endN : ℕ) :
    Except PyErr (List ℕ × WithTop ℝ × Stats) :=
  let costs0 : ℕ → Option (WithTop ℝ) :=
    Function.update (fun v => if v ∈ g.nodes then some ⊤ else none) start (some 0)
  let parents0 : ℕ → Option (Option ℕ) :=
    fun v => if v ∈ g.nodes then some none else none
  let s0 : LoopState :=
    { costs := costs0, parents := parents0,
      pq := [((0 : WithTop ℝ), start)], visited := ∅, stats := stats0 }
  let E := ((start :: g.nodes).map fun u => (g.get_neighbors u).length).sum
  match dijkstraLoop g vehicle_type edge_history endN
      ((E + 1) * (g.nodes.length + 1) + 2) s0 with
  | .error err => .error err
  | .ok s =>
    match reconstruct_path (g.nodes.length + 2) s.parents start endN with
    | .error err => .error err
    | .ok path =>
      match s.costs endN with
      | none => .error .keyError
      | some total_cost =>
        if path ≠ [] then
          .ok (path, total_cost, { s.stats with path_length := path.length })
        else .ok (path, ⊤, s.stats)

/-- Reachability along the directed neighbour relation of the graph. -/
def Reach (g : RoadGraph) : ℕ → ℕ → Prop :=
  Relation.ReflTransGen fun a b => b ∈ (g.get_neighbors a).map fun e => e.1

/-- The vehicle-penalty step function only takes the values
1.0, 1.1, 1.3 and 1.8, so it is at least 1. -/
lemma one_le_vehicle_penalty (vt : String) (q : ℝ) : 1 ≤ vehicle_penalty vt q := by
  unfold vehicle_penalty
  split_ifs <;> norm_num

lemma vehicle_penalty_nonneg (vt : String) (q : ℝ) : 0 ≤ vehicle_penalty vt q :=
  le_trans zero_le_one (one_le_vehicle_penalty vt q)

/-- Claim C2.  For every edge with `base_distance ≥ 0` and data-model
metadata (`traffic_factor ≥ 0`), every vehicle class, and every history
whose records satisfy the data-model constraints (`average_delay ≥ 0`,
`failure_rate ∈ [0,1]`), the adaptive cost returned by
`_calculate_adaptive_cost` is at least the static
`base_cost = base_distance × traffic_factor × vehicle_penalty`:
history never lowers the cost of an edge below its static baseline. -/
theorem adaptive_cost_ge_base_cost (vt : String) (h : EdgeHistory) (f t : ℕ)
    (bd : ℝ) (md : Metadata) (hbd : 0 ≤ bd) (htf : 0 ≤ md.traffic_factor)
    (hrec : ∀ k r, h k = some r →
      0 ≤ r.average_delay ∧ 0 ≤ r.failure_rate ∧ r.failure_rate ≤ 1) :
    base_cost vt bd md ≤ (calculate_adaptive_cost vt h f t bd md).1 := by
  have hbc : 0 ≤ base_cost vt bd md :=
    mul_nonneg (mul_nonneg hbd htf) (vehicle_penalty_nonneg vt md.quality)
  unfold calculate_adaptive_cost
  cases hk : h (f, t) with
  | none => simp
  | some r =>
    obtain ⟨havg, hfr, -⟩ := hrec _ _ hk
    by_cases hc : r.usage_count ≥ MIN_SAMPLES
    · simp only [hc, if_pos]
      have hconf : (0 : ℝ) ≤ min ((r.usage_count : ℝ) / 10.0) 1.0 :=
        le_min (by positivity) (by norm_num)
      have hpen : (1 : ℝ) ≤ 1.0 + HISTORICAL_WEIGHT *
          (min ((r.usage_count : ℝ) / 10.0) 1.0) *
          (r.average_delay + r.failure_rate * 2.0) := by
        have : (0 : ℝ) ≤ HISTORICAL_WEIGHT *
            (min ((r.usage_count : ℝ) / 10.0) 1.0) *
            (r.average_delay + r.failure_rate * 2.0) := by
          apply mul_nonneg (mul_nonneg (by norm_num [HISTORICAL_WEIGHT]) hconf)
          nlinarith
        linarith
      simpa using le_mul_of_one_le_right hbc hpen
    · simp [hc]

/-- Witness for C2: a concrete edge and the empty history. -/
theorem adaptive_cost_ge_base_cost_witness :
    base_cost "boda" 1 ⟨1, 1⟩ ≤
      (calculate_adaptive_cost "boda" (fun _ => none) 0 1 1 ⟨1, 1⟩).1 :=
  adaptive_cost_ge_base_cost "boda" (fun _ => none) 0 1 1 ⟨1, 1⟩
    (by norm_num) (by norm_num) (by intro k r hk; simp at hk)

/-- Claim C3.  For an edge whose key is absent from the history, or present
with `usage_count < MIN_SAMPLES`, `_calculate_adaptive_cost` returns exactly
the static base cost — whatever delay and failure values the record holds —
and reports no history influence (the `history_influenced` counter is not
incremented). -/
theorem low_confidence_cost_unmodified (vt : String) (h : EdgeHistory)
    (f t : ℕ) (bd : ℝ) (md : Metadata)
    (hgate : h (f, t) = none ∨
      ∃ r, h (f, t) = some r ∧ r.usage_count < MIN_SAMPLES) :
    calculate_adaptive_cost vt h f t bd md = (base_cost vt bd md, false) := by
  unfold calculate_adaptive_cost
  rcases hgate with hk | ⟨r, hk, hlt⟩
  · simp [hk]
  · simp [hk, not_le.mpr hlt]

/-- Witness for C3: a record with terrible statistics but only two samples
leaves the cost exactly at the static base cost. -/
theorem low_confidence_cost_unmodified_witness :
    calculate_adaptive_cost "boda"
      (fun _ => some { usage_count := 2, average_delay := 99, failure_rate := 1,
                       total_delay := 99, total_failures := 2 }) 0 1 10 ⟨1, 1⟩ =
      (base_cost "boda" 10 ⟨1, 1⟩, false) :=
  low_confidence_cost_unmodified "boda" _ 0 1 10 ⟨1, 1⟩
    (Or.inr ⟨_, rfl, by norm_num [MIN_SAMPLES]⟩)

/-- Claim C8.  The delay folded into every edge record by
`record_route_feedback` is `max(0, (actual − expected) / expected)` when
`expected > 0` and `0` otherwise; it is never negative, and no division by
zero is performed (the `expected_time > 0` guard). -/
theorem feedback_delay_clamped (h : EdgeHistory) (path : List ℕ)
    (a e : ℝ) (succ : Bool) :
    record_route_feedback h path a e succ =
      (path.zip path.tail).foldl
        (fun h' p =>
          feedback_update (if 0 < e then max 0 ((a - e) / e) else 0) succ h' p.1 p.2) h
    ∧ route_delay a e = (if 0 < e then max 0 ((a - e) / e) else 0)
    ∧ 0 ≤ route_delay a e := by
  have hδ : route_delay a e = (if 0 < e then max 0 ((a - e) / e) else 0) := by
    unfold route_delay
    split_ifs <;> simp
  refine ⟨?_, hδ, le_max_left _ _⟩
  unfold record_route_feedback
  rw [hδ]

/-- The data-model invariant on the edge-history store (spec §3): derived
fields are never stale and failures never exceed the sample count. -/
def HistoryInv (h : EdgeHistory) : Prop :=
  ∀ k r, h k = some r →
    r.average_delay = r.total_delay / (r.usage_count : ℝ) ∧
    r.failure_rate = (r.total_failures : ℝ) / (r.usage_count : ℝ) ∧
    r.total_failures ≤ r.usage_count

lemma feedback_update_HistoryInv {h : EdgeHistory} (d : ℝ) (succ : Bool)
    (f t : ℕ) (hh : HistoryInv h) : HistoryInv (feedback_update d succ h f t) := by
  intro k r hk
  unfold feedback_update at hk
  by_cases hkey : k = (f, t)
  · subst hkey
    rw [Function.update_same] at hk
    obtain rfl : _ = r := Option.some_injective _ hk
    refine ⟨rfl, rfl, ?_⟩
    have hold : ((h (f, t)).getD init_record).total_failures ≤
        ((h (f, t)).getD init_record).usage_count := by
      cases hr : h (f, t) with
      | none => simp [init_record]
      | some r0 => simpa using (hh _ _ hr).2.2
    cases succ <;> simp <;> omega
  · rw [Function.update_noteq hkey] at hk
    exact hh _ _ hk

lemma foldl_feedback_HistoryInv (d : ℝ) (succ : Bool) :
    ∀ (l : List (ℕ × ℕ)) (h : EdgeHistory), HistoryInv h →
      HistoryInv (l.foldl (fun h' p => feedback_update d succ h' p.1 p.2) h) := by
  intro l
  induction l with
  | nil => intro h hh; exact hh
  | cons p l ih =>
    intro h hh
    exact ih _ (feedback_update_HistoryInv d succ p.1 p.2 hh)

lemma HistoryInv.failure_rate_mem_unit {h : EdgeHistory} (hh : HistoryInv h)
    {k : ℕ × ℕ} {r : EdgeHistoryRecord} (hk : h k = some r) :
    0 ≤ r.failure_rate ∧ r.failure_rate ≤ 1 := by
  obtain ⟨-, hfr, hle⟩ := hh _ _ hk
  rcases Nat.eq_zero_or_pos r.usage_count with hz | hpos
  · have : r.total_failures = 0 := by omega
    simp [hfr, hz, this]
  · constructor
    · rw [hfr]; positivity
    · rw [hfr]
      rw [div_le_one (by exact_mod_cast hpos)]
      exact_mod_cast hle

/-- Claim C4.  If the edge-history store satisfies the data-model invariant,
then immediately after any `record_route_feedback` call every record again
satisfies `average_delay = total_delay / usage_count` and
`failure_rate = total_failures / usage_count` with
`total_failures ≤ usage_count`, so every observable `failure_rate` lies in
`[0,1]`: no caller can observe stale derived fields. -/
theorem history_invariant_after_feedback (h : EdgeHistory) (path : List ℕ)
    (a e : ℝ) (succ : Bool) (hh : HistoryInv h) :
    HistoryInv (record_route_feedback h path a e succ) ∧
    ∀ k r, record_route_feedback h path a e succ k = some r →
      0 ≤ r.failure_rate ∧ r.failure_rate ≤ 1 := by
  have hinv : HistoryInv (record_route_feedback h path a e succ) :=
    foldl_feedback_HistoryInv _ _ _ _ hh
  exact ⟨hinv, fun k r hk => hinv.failure_rate_mem_unit hk⟩

/-- Witness for C4: one feedback call on the empty store. -/
theorem history_invariant_after_feedback_witness :
    HistoryInv (record_route_feedback (fun _ => none) [0, 1, 2] 30 20 true) ∧
    ∀ k r, record_route_feedback (fun _ => none) [0, 1, 2] 30 20 true k = some r →
      0 ≤ r.failure_rate ∧ r.failure_rate ≤ 1 :=
  history_invariant_after_feedback (fun _ => none) [0, 1, 2] 30 20 true
    (fun k r hk => by simp at hk)

/-- Claim C9.  Each per-edge update of `record_route_feedback` performs
exactly: `new_count = old_count + 1`,
`decay = DECAY_FACTOR ^ (1 / (new_count + 1))`,
`total_delay' = total_delay * decay + delay`,
`average_delay' = total_delay' / new_count`, and the per-update decay is
farthest from 1 on the second observation (among the observations from the
second on — on the first it multiplies a zero accumulator), strictly
approaching 1 as the count grows. -/
theorem feedback_update_decay_formula :
    (∀ (d : ℝ) (succ : Bool) (h : EdgeHistory) (f t : ℕ) (r : EdgeHistoryRecord),
      h (f, t) = some r →
      feedback_update d succ h f t (f, t) = some
        { usage_count := r.usage_count + 1,
          average_delay :=
            (r.total_delay * (DECAY_FACTOR ^ ((1 : ℝ) / (((r.usage_count + 1 : ℕ) : ℝ) + 1))) + d) /
              ((r.usage_count + 1 : ℕ) : ℝ),
          failure_rate :=
            (((if succ then r.total_failures else r.total_failures + 1) : ℕ) : ℝ) /
              ((r.usage_count + 1 : ℕ) : ℝ),
          total_delay :=
            r.total_delay * (DECAY_FACTOR ^ ((1 : ℝ) / (((r.usage_count + 1 : ℕ) : ℝ) + 1))) + d,
          total_failures := if succ then r.total_failures else r.total_failures + 1 }) ∧
    (∀ n : ℕ, 2 ≤ n →
      DECAY_FACTOR ^ ((1 : ℝ) / ((2 : ℝ) + 1)) ≤ DECAY_FACTOR ^ ((1 : ℝ) / ((n : ℝ) + 1))) ∧
    (∀ n : ℕ, DECAY_FACTOR ^ ((1 : ℝ) / ((n : ℝ) + 1)) < DECAY_FACTOR ^ ((1 : ℝ) / ((n : ℝ) + 2))) ∧
    (∀ n : ℕ, DECAY_FACTOR ^ ((1 : ℝ) / ((n : ℝ) + 1)) < 1) ∧
    Filter.Tendsto (fun n : ℕ => DECAY_FACTOR ^ ((1 : ℝ) / ((n : ℝ) + 1)))
      Filter.atTop (nhds 1) := by
  refine ⟨?_, ?_, ?_, ?_, ?_⟩
  · intro d succ h f t r hr
    simp [feedback_update, hr]
  · intro n hn
    apply Real.rpow_le_rpow_of_exponent_ge (by norm_num [DECAY_FACTOR])
      (by norm_num [DECAY_FACTOR])
    rw [div_le_div_iff₀ (by positivity) (by norm_num)]
    have : (2 : ℝ) ≤ (n : ℝ) := by exact_mod_cast hn
    linarith
  · intro n
    apply Real.rpow_lt_rpow_of_exponent_gt (by norm_num [DECAY_FACTOR])
      (by norm_num [DECAY_FACTOR])
    rw [div_lt_div_iff₀ (by positivity) (by positivity)]
    linarith
  · intro n
    apply Real.rpow_lt_one (by norm_num [DECAY_FACTOR]) (by norm_num [DECAY_FACTOR])
    positivity
  · have h1 : Filter.Tendsto (fun n : ℕ => (1 : ℝ) / ((n : ℝ) + 1))
        Filter.atTop (nhds 0) := tendsto_one_div_add_atTop_nhds_zero_nat
    have h2 : ContinuousAt (fun y : ℝ => DECAY_FACTOR ^ y) 0 :=
      Real.continuousAt_const_rpow (by norm_num [DECAY_FACTOR])
    have := h2.tendsto.comp h1
    simpa using this

/-- Witness for C9 at concrete inputs. -/
theorem feedback_update_decay_formula_witness :
    feedback_update (1/2) true (fun _ => some init_record) 0 1 (0, 1) = some
      { usage_count := init_record.usage_count + 1,
        average_delay :=
          (init_record.total_delay *
              (DECAY_FACTOR ^ ((1 : ℝ) / (((init_record.usage_count + 1 : ℕ) : ℝ) + 1))) + 1/2) /
            ((init_record.usage_count + 1 : ℕ) : ℝ),
        failure_rate :=
          (((if true then init_record.total_failures else init_record.total_failures + 1) : ℕ) : ℝ) /
            ((init_record.usage_count + 1 : ℕ) : ℝ),
        total_delay :=
          init_record.total_delay *
              (DECAY_FACTOR ^ ((1 : ℝ) / (((init_record.usage_count + 1 : ℕ) : ℝ) + 1))) + 1/2,
        total_failures := if true then init_record.total_failures else init_record.total_failures + 1 } ∧
    DECAY_FACTOR ^ ((1 : ℝ) / ((2 : ℝ) + 1)) ≤ DECAY_FACTOR ^ ((1 : ℝ) / (((5 : ℕ) : ℝ) + 1)) :=
  ⟨feedback_update_decay_formula.1 (1/2) true (fun _ => some init_record) 0 1 init_record rfl,
   feedback_update_decay_formula.2.1 5 (by norm_num)⟩

/-- Counterexample to claim C5 as stated: an edge whose only previous
observation was a failure has `usage_count = 1 > 0` and `failure_rate = 1`;
a second failed feedback leaves `failure_rate` at exactly 1, so it does not
strictly increase. -/
theorem failure_rate_strict_increase_counterexample :
    0 < ((record_route_feedback (fun _ => none) [0, 1] 30 20 false (0, 1)).getD
        init_record).usage_count ∧
    ¬ ((record_route_feedback (fun _ => none) [0, 1] 30 20 false (0, 1)).getD
          init_record).failure_rate <
        ((record_route_feedback (record_route_feedback (fun _ => none) [0, 1] 30 20 false)
            [0, 1] 30 20 false (0, 1)).getD init_record).failure_rate := by
  norm_num [record_route_feedback, route_delay, feedback_update, init_record,
    Function.update]

/-- Claim C5, amended.  After a `record_route_feedback` call with
`success = false` for the edge `(u, v)`: if the edge had no record, its
`failure_rate` becomes exactly 1; if it had a non-stale record with
`total_failures < usage_count` (i.e. `failure_rate < 1`), its
`failure_rate` strictly increases.  (A record already at `failure_rate = 1`
stays at 1 — see the counterexample.) -/
theorem failure_rate_increase_amended (h : EdgeHistory) (u v : ℕ) (a e : ℝ)
    (hcase : h (u, v) = none ∨
      ∃ r, h (u, v) = some r ∧
        r.failure_rate = (r.total_failures : ℝ) / (r.usage_count : ℝ) ∧
        r.total_failures < r.usage_count) :
    ∃ r', record_route_feedback h [u, v] a e false (u, v) = some r' ∧
      (h (u, v) = none → r'.failure_rate = 1) ∧
      (∀ r, h (u, v) = some r → r.failure_rate < r'.failure_rate) := by
  have hrw : record_route_feedback h [u, v] a e false =
      feedback_update (route_delay a e) false h u v := by
    simp [record_route_feedback]
  rcases hcase with hnone | ⟨r, hr, hfr, hlt⟩
  · refine ⟨_, by rw [hrw]; exact Function.update_same _ _ _, fun _ => ?_, ?_⟩
    · simp [feedback_update, hnone, init_record]
    · intro r hr; rw [hnone] at hr; exact absurd hr (by simp)
  · refine ⟨_, by rw [hrw]; exact Function.update_same _ _ _, fun hn => ?_, ?_⟩
    · rw [hn] at hr; exact absurd hr (by simp)
    · intro r0 hr0
      rw [hr] at hr0
      obtain rfl : r = r0 := Option.some_injective _ hr0
      have hpos : 0 < r.usage_count := lt_of_le_of_lt (Nat.zero_le _) hlt
      simp only [feedback_update, hr, Option.getD_some, Bool.false_eq_true,
        if_false, hfr]
      rw [div_lt_div_iff₀ (by exact_mod_cast hpos) (by positivity)]
      push_cast
      have h1 : (r.total_failures : ℝ) < (r.usage_count : ℝ) := by exact_mod_cast hlt
      nlinarith

/-- Witness for the amended C5: first observation of an edge with a failed
route yields `failure_rate = 1`. -/
theorem failure_rate_increase_amended_witness :
    ∃ r', record_route_feedback (fun _ => none) [0, 1] 30 20 false (0, 1) = some r' ∧
      ((fun _ => none : EdgeHistory) (0, 1) = none → r'.failure_rate = 1) ∧
      (∀ r, (fun _ => none : EdgeHistory) (0, 1) = some r → r.failure_rate < r'.failure_rate) :=
  failure_rate_increase_amended (fun _ => none) 0 1 30 20 (Or.inl rfl)

lemma popMin_singleton (x : WithTop ℝ × ℕ) : popMin [x] = some (x, []) := rfl

lemma popMin_nil : popMin [] = none := rfl

/-- Stepping the search loop when the frontier is empty. -/
lemma dijkstraLoop_empty {g : RoadGraph} {vt : String} {eh : EdgeHistory}
    {endN : ℕ} {fuel : ℕ} {s : LoopState} (hfuel : 0 < fuel)
    (hpq : popMin s.pq = none) :
    dijkstraLoop g vt eh endN fuel s = .ok s := by
  cases fuel with
  | zero => omega
  | succ n => rw [dijkstraLoop, hpq]

/-- Stepping the search loop on a stale (already visited) entry. -/
lemma dijkstraLoop_visited {g : RoadGraph} {vt : String} {eh : EdgeHistory}
    {endN : ℕ} {fuel : ℕ} {s : LoopState} {c : WithTop ℝ} {cur : ℕ}
    {pq' : List (WithTop ℝ × ℕ)} (hfuel : 0 < fuel)
    (hpq : popMin s.pq = some ((c, cur), pq')) (hv : cur ∈ s.visited) :
    dijkstraLoop g vt eh endN fuel s =
      dijkstraLoop g vt eh endN (fuel - 1) { s with pq := pq' } := by
  cases fuel with
  | zero => omega
  | succ n => rw [dijkstraLoop, hpq]; simp [hv]

/-- Stepping the search loop when the popped node is the goal (`break`). -/
lemma dijkstraLoop_goal {g : RoadGraph} {vt : String} {eh : EdgeHistory}
    {endN : ℕ} {fuel : ℕ} {s : LoopState} {c : WithTop ℝ} {cur : ℕ}
    {pq' : List (WithTop ℝ × ℕ)} (hfuel : 0 < fuel)
    (hpq : popMin s.pq = some ((c, cur), pq')) (hv : cur ∉ s.visited)
    (hgoal : cur = endN) :
    dijkstraLoop g vt eh endN fuel s =
      .ok { s with pq := pq',
                   visited := insert cur s.visited,
                   stats := { s.stats with
                              nodes_explored := s.stats.nodes_explored + 1 } } := by
  subst hgoal
  cases fuel with
  | zero => omega
  | succ n => rw [dijkstraLoop, hpq]; simp [hv]

/-- Stepping the search loop when the popped node is new and not the goal:
explore its neighbours, then continue. -/
lemma dijkstraLoop_explore {g : RoadGraph} {vt : String} {eh : EdgeHistory}
    {endN : ℕ} {fuel : ℕ} {s : LoopState} {c : WithTop ℝ} {cur : ℕ}
    {pq' : List (WithTop ℝ × ℕ)} (hfuel : 0 < fuel)
    (hpq : popMin s.pq = some ((c, cur), pq')) (hv : cur ∉ s.visited)
    (hgoal : cur ≠ endN) :
    dijkstraLoop g vt eh endN fuel s =
      match processEdges vt eh cur (g.get_neighbors cur)
          { s with pq := pq',
                   visited := insert cur s.visited,
                   stats := { s.stats with
                              nodes_explored := s.stats.nodes_explored + 1 } } with
      | .error err => .error err
      | .ok s' => dijkstraLoop g vt eh endN (fuel - 1) s' := by
  cases fuel with
  | zero => omega
  | succ n => rw [dijkstraLoop, hpq]; simp [hv, hgoal]

lemma walkParents_stop {parents : ℕ → Option (Option ℕ)} {fuel : ℕ}
    {acc : List ℕ} (hfuel : 0 < fuel) :
    walkParents parents fuel none acc = .ok acc.reverse := by
  cases fuel with
  | zero => omega
  | succ n => rfl

lemma walkParents_step {parents : ℕ → Option (Option ℕ)} {fuel cur : ℕ}
    {acc : List ℕ} {p : Option ℕ} (hfuel : 0 < fuel) (hp : parents cur = some p) :
    walkParents parents fuel (some cur) acc =
      walkParents parents (fuel - 1) p (acc ++ [cur]) := by
  cases fuel with
  | zero => omega
  | succ n => rw [walkParents, hp]; simp

/-- Claim C10.  For every node `s` of the graph, every history and every
vehicle class, `find_optimal_path(s, s)` returns the single-node path `[s]`
with total cost 0 (the goal-equals-start case succeeds even though the goal
has no parent link). -/
theorem start_eq_end_trivial_path (g : RoadGraph) (vt : String)
    (eh : EdgeHistory) (s : ℕ) (hs : s ∈ g.nodes) :
    find_optimal_path g vt eh s s =
      .ok ([s], (0 : WithTop ℝ),
        { stats0 with nodes_explored := 1, path_length := 1 }) := by
  simp only [find_optimal_path]
  rw [dijkstraLoop_goal (by omega) (popMin_singleton _) (by simp) rfl]
  dsimp only
  rw [reconstruct_path]
  rw [if_pos hs]
  dsimp only
  rw [if_neg (by simp)]
  rw [walkParents_step (p := none) (by omega) (by simp [hs]),
    walkParents_stop (by omega)]
  dsimp only
  rw [Function.update_same]
  simp [stats0]

/-- Witness for C10: a one-node graph. -/
theorem start_eq_end_trivial_path_witness :
    find_optimal_path ⟨[0], fun _ => []⟩ "boda" (fun _ => none) 0 0 =
      .ok ([0], (0 : WithTop ℝ),
        { stats0 with nodes_explored := 1, path_length := 1 }) :=
  start_eq_end_trivial_path ⟨[0], fun _ => []⟩ "boda" (fun _ => none) 0 (by simp)

/-- The 3-node line graph `0 → 1 → 2` of the concrete scenario in §8 of the
spec: each edge has `base_distance = 10`, `traffic_factor = 1.0`,
`quality = 1.0`. -/
noncomputable def lineGraph : RoadGraph :=
  { nodes := [0, 1, 2],
    get_neighbors := fun u =>
      if u = 0 then [(1, 10, ⟨1, 1⟩)]
      else if u = 1 then [(2, 10, ⟨1, 1⟩)] else [] }

lemma lineGraph_nodes : lineGraph.nodes = [0, 1, 2] := rfl

lemma lineGraph_nbr0 :
    lineGraph.get_neighbors 0 = [(1, (10 : ℝ), (⟨1, 1⟩ : Metadata))] := rfl

lemma lineGraph_nbr1 :
    lineGraph.get_neighbors 1 = [(2, (10 : ℝ), (⟨1, 1⟩ : Metadata))] := rfl

/-- Running the search on the line graph under an arbitrary history: the
path is `[0,1,2]` and the total cost is the sum of the two adaptive edge
costs. -/
lemma lineGraph_run (eh : EdgeHistory) :
    ∃ st : Stats,
      find_optimal_path lineGraph "boda" eh 0 2 =
        .ok ([0, 1, 2],
          (((calculate_adaptive_cost "boda" eh 0 1 10 ⟨1, 1⟩).1 +
            (calculate_adaptive_cost "boda" eh 1 2 10 ⟨1, 1⟩).1 : ℝ) : WithTop ℝ), st) := by
  rcases hec01 : calculate_adaptive_cost "boda" eh 0 1 10 ⟨1, 1⟩ with ⟨c01, b01⟩
  rcases hec12 : calculate_adaptive_cost "boda" eh 1 2 10 ⟨1, 1⟩ with ⟨c12, b12⟩
  simp only [find_optimal_path]
  rw [show ((List.map (fun u => (lineGraph.get_neighbors u).length)
      (0 :: lineGraph.nodes)).sum + 1) * (lineGraph.nodes.length + 1) + 2 = 18
    from by norm_num [lineGraph]]
  rw [dijkstraLoop_explore (by omega) (popMin_singleton _)
    (by simp) (by norm_num)]
  dsimp only
  rw [lineGraph_nbr0, processEdges]
  simp only [processEdge]
  rw [hec01]
  rw [if_neg (by decide : (1 : ℕ) ∉ (insert 0 ∅ : Finset ℕ))]
  cases b01 <;> cases b12
  all_goals
    simp [Function.update_apply, lineGraph_nodes, stats0, processEdges]
  all_goals
    rw [dijkstraLoop_explore (by omega) (popMin_singleton _) (by simp)
        (by norm_num),
      lineGraph_nbr1, processEdges]
    simp only [processEdge]
    rw [hec12]
    simp [Function.update_apply, lineGraph_nodes, processEdges,
      WithTop.add_lt_top, WithTop.coe_lt_top]
  all_goals
    rw [dijkstraLoop_goal (by omega) (popMin_singleton _) (by simp) rfl]
    dsimp only
    rw [reconstruct_path, Function.update_same]
    dsimp only
    rw [if_neg (by simp)]
    rw [walkParents_step (p := some 1) (by omega) (Function.update_same _ _ _)]
    rw [walkParents_step (p := some 0) (by omega) (by simp [Function.update_apply])]
    rw [walkParents_step (p := none) (by omega) (by simp [Function.update_apply])]
    rw [walkParents_stop (by omega)]
    simp [Function.update_apply]

lemma feedback_update_other (d : ℝ) (succ : Bool) (h : EdgeHistory)
    (f t : ℕ) (k : ℕ × ℕ) (hk : k ≠ (f, t)) :
    feedback_update d succ h f t k = h k := by
  unfold feedback_update
  exact Function.update_noteq hk _ _

lemma route_delay_30_20 : route_delay 30 20 = 1 / 2 := by
  norm_num [route_delay]

/-- The value a per-edge update stores at its own key. -/
lemma feedback_update_lookup (d : ℝ) (succ : Bool) (h : EdgeHistory) (f t : ℕ) :
    feedback_update d succ h f t (f, t) = some
      { usage_count := ((h (f, t)).getD init_record).usage_count + 1,
        average_delay :=
          (((h (f, t)).getD init_record).total_delay *
              (DECAY_FACTOR ^ ((1 : ℝ) /
                ((((((h (f, t)).getD init_record).usage_count + 1 : ℕ)) : ℝ) + 1))) + d) /
            ((((h (f, t)).getD init_record).usage_count + 1 : ℕ) : ℝ),
        failure_rate :=
          (((if succ then ((h (f, t)).getD init_record).total_failures
              else ((h (f, t)).getD init_record).total_failures + 1) : ℕ) : ℝ) /
            ((((h (f, t)).getD init_record).usage_count + 1 : ℕ) : ℝ),
        total_delay :=
          ((h (f, t)).getD init_record).total_delay *
              (DECAY_FACTOR ^ ((1 : ℝ) /
                ((((((h (f, t)).getD init_record).usage_count + 1 : ℕ)) : ℝ) + 1))) + d,
        total_failures :=
          if succ then ((h (f, t)).getD init_record).total_failures
          else ((h (f, t)).getD init_record).total_failures + 1 } := by
  unfold feedback_update
  rw [Function.update_same]

lemma feedback_update_sameKey_congr {h h' : EdgeHistory} (d : ℝ) (succ : Bool)
    (f t : ℕ) (hh : h (f, t) = h' (f, t)) :
    feedback_update d succ h f t (f, t) = feedback_update d succ h' f t (f, t) := by
  unfold feedback_update
  rw [Function.update_same, Function.update_same, hh]

/-- Looking up edge `(0,1)` after feeding back the path `[0,1,2]`. -/
lemma rrf012_apply01 (h : EdgeHistory) :
    record_route_feedback h [0, 1, 2] 30 20 true (0, 1) =
      feedback_update (1 / 2) true h 0 1 (0, 1) := by
  simp only [record_route_feedback, route_delay_30_20, List.zip_cons_cons,
    List.tail_cons, List.zip_nil_right, List.foldl_cons, List.foldl_nil]
  rw [feedback_update_other _ _ _ _ _ _ (by decide)]

/-- Looking up edge `(1,2)` after feeding back the path `[0,1,2]`. -/
lemma rrf012_apply12 (h : EdgeHistory) :
    record_route_feedback h [0, 1, 2] 30 20 true (1, 2) =
      feedback_update (1 / 2) true h 1 2 (1, 2) := by
  simp only [record_route_feedback, route_delay_30_20, List.zip_cons_cons,
    List.tail_cons, List.zip_nil_right, List.foldl_cons, List.foldl_nil]
  exact feedback_update_sameKey_congr _ _ _ _
    (feedback_update_other _ _ _ _ _ _ (by decide))

/-- Claim C1.  On the 3-node line graph `0→1→2` (each edge:
`base_distance = 10`, `traffic_factor = 1.0`, `quality = 1.0`), vehicle
class `boda`, empty history: `find_optimal_path(0, 2)` returns path
`[0,1,2]` with cost exactly `20.0`.  After three
`record_route_feedback([0,1,2], 30, 20, success=true)` calls — which bring
`usage_count` to 3 on each of the two edges — `find_optimal_path(0, 2)`
returns a total cost strictly greater than `20.0`. -/
theorem line_graph_scenario :
    (∃ st, find_optimal_path lineGraph "boda" (fun _ => none) 0 2 =
      .ok ([0, 1, 2], ((20 : ℝ) : WithTop ℝ), st)) ∧
    (((record_route_feedback (record_route_feedback (record_route_feedback
        (fun _ => none) [0, 1, 2] 30 20 true) [0, 1, 2] 30 20 true)
        [0, 1, 2] 30 20 true) (0, 1)).getD init_record).usage_count = 3 ∧
    (((record_route_feedback (record_route_feedback (record_route_feedback
        (fun _ => none) [0, 1, 2] 30 20 true) [0, 1, 2] 30 20 true)
        [0, 1, 2] 30 20 true) (1, 2)).getD init_record).usage_count = 3 ∧
    ∃ st c, find_optimal_path lineGraph "boda"
        (record_route_feedback (record_route_feedback (record_route_feedback
          (fun _ => none) [0, 1, 2] 30 20 true) [0, 1, 2] 30 20 true)
          [0, 1, 2] 30 20 true) 0 2 =
      .ok ([0, 1, 2], ((c : ℝ) : WithTop ℝ), st) ∧ 20 < c := by
  have hbase : base_cost "boda" 10 ⟨1, 1⟩ = 10 := by
    norm_num [base_cost, vehicle_penalty]
  have hc01 : calculate_adaptive_cost "boda" (fun _ => none) 0 1 10 ⟨1, 1⟩ =
      (10, false) := by
    simp [calculate_adaptive_cost, hbase]
  have hc12 : calculate_adaptive_cost "boda" (fun _ => none) 1 2 10 ⟨1, 1⟩ =
      (10, false) := by
    simp [calculate_adaptive_cost, hbase]
  have k1 := rrf012_apply01 (fun _ => none)
  rw [feedback_update_lookup] at k1
  simp only [init_record] at k1
  norm_num at k1
  have k2 := rrf012_apply01 (record_route_feedback (fun _ => none) [0, 1, 2] 30 20 true)
  rw [feedback_update_lookup, k1] at k2
  norm_num at k2
  have k3 := rrf012_apply01 (record_route_feedback (record_route_feedback
    (fun _ => none) [0, 1, 2] 30 20 true) [0, 1, 2] 30 20 true)
  rw [feedback_update_lookup, k2] at k3
  norm_num at k3
  have m1 := rrf012_apply12 (fun _ => none)
  rw [feedback_update_lookup] at m1
  simp only [init_record] at m1
  norm_num at m1
  have m2 := rrf012_apply12 (record_route_feedback (fun _ => none) [0, 1, 2] 30 20 true)
  rw [feedback_update_lookup, m1] at m2
  norm_num at m2
  have m3 := rrf012_apply12 (record_route_feedback (record_route_feedback
    (fun _ => none) [0, 1, 2] 30 20 true) [0, 1, 2] 30 20 true)
  rw [feedback_update_lookup, m2] at m3
  norm_num at m3
  refine ⟨?_, ?_, ?_, ?_⟩
  · obtain ⟨st, hst⟩ := lineGraph_run (fun _ => none)
    exact ⟨st, by rw [hst, hc01, hc12]; norm_num⟩
  · rw [k3]; rfl
  · rw [m3]; rfl
  · obtain ⟨st, hst⟩ := lineGraph_run (record_route_feedback (record_route_feedback
      (record_route_feedback (fun _ => none) [0, 1, 2] 30 20 true)
      [0, 1, 2] 30 20 true) [0, 1, 2] 30 20 true)
    refine ⟨st, _, hst, ?_⟩
    have h01 : 10 < (calculate_adaptive_cost "boda" (record_route_feedback
        (record_route_feedback (record_route_feedback (fun _ => none)
        [0, 1, 2] 30 20 true) [0, 1, 2] 30 20 true) [0, 1, 2] 30 20 true)
        0 1 10 ⟨1, 1⟩).1 := by
      simp only [calculate_adaptive_cost, k3, hbase]
      norm_num [MIN_SAMPLES, HISTORICAL_WEIGHT, min_def, DECAY_FACTOR]
      positivity
    have h12 : 10 < (calculate_adaptive_cost "boda" (record_route_feedback
        (record_route_feedback (record_route_feedback (fun _ => none)
        [0, 1, 2] 30 20 true) [0, 1, 2] 30 20 true) [0, 1, 2] 30 20 true)
        1 2 10 ⟨1, 1⟩).1 := by
      simp only [calculate_adaptive_cost, m3, hbase]
      norm_num [MIN_SAMPLES, HISTORICAL_WEIGHT, min_def, DECAY_FACTOR]
      positivity
    linarith

lemma popMin_eq_none_iff (l : List (WithTop ℝ × ℕ)) : popMin l = none ↔ l = [] := by
  cases l with
  | nil => simp [popMin]
  | cons x xs =>
    constructor
    · intro h
      rw [popMin] at h
      rcases hxs : popMin xs with - | ⟨m, rest⟩ <;> rw [hxs] at h <;> dsimp only at h
      · simp at h
      · split_ifs at h <;> exact absurd h (by simp)
    · intro h; simp at h

/-- What `heappop` guarantees: the element came from the queue and the
remainder is one shorter, drawn from the queue. -/
lemma popMin_spec {l rest : List (WithTop ℝ × ℕ)} {m : WithTop ℝ × ℕ}
    (h : popMin l = some (m, rest)) :
    m ∈ l ∧ l.length = rest.length + 1 ∧ ∀ y ∈ rest, y ∈ l := by
  induction l generalizing m rest with
  | nil => simp [popMin] at h
  | cons x xs ih =>
    rw [popMin] at h
    rcases hxs : popMin xs with - | ⟨m', rest'⟩ <;> rw [hxs] at h <;> dsimp only at h
    · have hx : xs = [] := (popMin_eq_none_iff xs).mp hxs
      simp at h
      obtain ⟨rfl, rfl⟩ := h
      simp [hx]
    · obtain ⟨hm', hlen', hrest'⟩ := ih hxs
      split_ifs at h with hle <;> simp at h <;> obtain ⟨rfl, rfl⟩ := h
      · exact ⟨by simp, by simp, fun y hy => by simp [hy]⟩
      · refine ⟨by simp [hm'], by simp [hlen'], ?_⟩
        intro y hy
        rcases List.mem_cons.mp hy with rfl | hy'
        · simp
        · simp [hrest' y hy']

/-- The candidate set: every node the queue can ever contain (the keys of
the `costs` dict). -/
def Cands (g : RoadGraph) (start : ℕ) : Finset ℕ :=
  insert start g.nodes.toFinset

/-- Total out-degree bound used for the fuel argument. -/
def Edeg (g : RoadGraph) (start : ℕ) : ℕ :=
  ((start :: g.nodes).map fun u => (g.get_neighbors u).length).sum

/-- The loop variant: queue length plus a weighted count of unvisited
candidates. -/
def Phi (g : RoadGraph) (start : ℕ) (s : LoopState) : ℕ :=
  s.pq.length + (Edeg g start + 1) * ((Cands g start) \ s.visited).card

/-- The graph collaborator only hands out neighbours that are nodes. -/
def Closed (g : RoadGraph) : Prop :=
  ∀ u, ∀ e ∈ g.get_neighbors u, e.1 ∈ g.nodes

/-- The invariant maintained by the search loop. -/
def LoopInv (g : RoadGraph) (start : ℕ) (s : LoopState) : Prop :=
  (∀ p ∈ s.pq, p.2 ∈ Cands g start ∧ Reach g start p.2) ∧
  (∀ v, (s.costs v).isSome ↔ v ∈ Cands g start) ∧
  (∀ v, (s.parents v).isSome → v ∈ Cands g start) ∧
  (∀ v, v ∈ g.nodes → (s.parents v).isSome) ∧
  (∀ v u, s.parents v = some (some u) → Reach g start v) ∧
  ((s.parents start).isSome → start ∈ g.nodes) ∧
  (start ∉ s.visited → s.pq = [((0 : WithTop ℝ), start)])

lemma mem_Cands_iff {g : RoadGraph} {start v : ℕ} :
    v ∈ Cands g start ↔ v ∈ (start :: g.nodes) := by
  simp [Cands]

lemma deg_le_Edeg {g : RoadGraph} {start cur : ℕ} (h : cur ∈ Cands g start) :
    (g.get_neighbors cur).length ≤ Edeg g start := by
  apply List.single_le_sum (by intro x hx; omega)
  exact List.mem_map_of_mem _ (mem_Cands_iff.mp h)

lemma reach_step {g : RoadGraph} {start cur : ℕ} {e : ℕ × ℝ × Metadata}
    (hcur : Reach g start cur) (hedge : e ∈ g.get_neighbors cur) :
    Reach g start e.1 :=
  Relation.ReflTransGen.tail hcur (List.mem_map_of_mem _ hedge)

/-- Effect of one neighbour-loop iteration on everything the invariant
tracks. -/
lemma processEdge_spec {g : RoadGraph} {vt : String} {eh : EdgeHistory}
    {start cur : ℕ} {s : LoopState} {e : ℕ × ℝ × Metadata}
    (hstart : start ∈ s.visited)
    (hcosts : ∀ v, (s.costs v).isSome ↔ v ∈ Cands g start)
    (hpdom : ∀ v, (s.parents v).isSome → v ∈ Cands g start)
    (hpnodes : ∀ v, v ∈ g.nodes → (s.parents v).isSome)
    (hpreach : ∀ v u, s.parents v = some (some u) → Reach g start v)
    (hpstart : (s.parents start).isSome → start ∈ g.nodes)
    (hcurC : cur ∈ Cands g start)
    (hcur : Reach g start cur)
    (hedge : e ∈ g.get_neighbors cur) :
    (processEdge vt eh cur s e = .error .keyError ∧ e.1 ∉ g.nodes) ∨
    (∃ s', processEdge vt eh cur s e = .ok s' ∧
      s'.visited = s.visited ∧
      s'.pq.length ≤ s.pq.length + 1 ∧
      (∀ p ∈ s'.pq, p ∈ s.pq ∨ (p.2 ∈ Cands g start ∧ Reach g start p.2)) ∧
      (∀ v, (s'.costs v).isSome ↔ v ∈ Cands g start) ∧
      (∀ v, (s'.parents v).isSome → v ∈ Cands g start) ∧
      (∀ v, v ∈ g.nodes → (s'.parents v).isSome) ∧
      (∀ v u, s'.parents v = some (some u) → Reach g start v) ∧
      ((s'.parents start).isSome → start ∈ g.nodes)) := by
  rcases hec : calculate_adaptive_cost vt eh cur e.1 e.2.1 e.2.2 with ⟨c, b⟩
  simp only [processEdge, hec]
  by_cases hv : e.1 ∈ s.visited
  · simp only [hv, if_pos]
    right
    exact ⟨_, rfl, rfl, by simp, fun p hp => Or.inl hp, hcosts, hpdom, hpnodes,
      hpreach, hpstart⟩
  · simp only [hv, if_neg, if_false]
    obtain ⟨cc, hcc⟩ := Option.isSome_iff_exists.mp ((hcosts cur).mpr hcurC)
    by_cases hn : e.1 ∈ Cands g start
    · obtain ⟨cn, hcn⟩ := Option.isSome_iff_exists.mp ((hcosts e.1).mpr hn)
      have hne_start : e.1 ≠ start := fun heq => hv (heq ▸ hstart)
      have hC : ∀ v, ((Function.update s.costs e.1 (some (cc + (c : WithTop ℝ)))) v).isSome ↔
          v ∈ Cands g start := by
        intro v
        rcases eq_or_ne v e.1 with rfl | hvne
        · simp [Function.update_same, hn]
        · rw [Function.update_noteq hvne]
          exact hcosts v
      have hP1 : ∀ v, ((Function.update s.parents e.1 (some (some cur))) v).isSome →
          v ∈ Cands g start := by
        intro v
        rcases eq_or_ne v e.1 with rfl | hvne
        · intro _
          exact hn
        · rw [Function.update_noteq hvne]
          exact hpdom v
      have hP2 : ∀ v, v ∈ g.nodes →
          ((Function.update s.parents e.1 (some (some cur))) v).isSome := by
        intro v hvn
        rcases eq_or_ne v e.1 with rfl | hvne
        · simp [Function.update_same]
        · rw [Function.update_noteq hvne]
          exact hpnodes v hvn
      have hP3 : ∀ v u, (Function.update s.parents e.1 (some (some cur))) v = some (some u) →
          Reach g start v := by
        intro v u
        rcases eq_or_ne v e.1 with rfl | hvne
        · intro _
          exact reach_step hcur hedge
        · rw [Function.update_noteq hvne]
          exact hpreach v u
      have hP4 : ((Function.update s.parents e.1 (some (some cur))) start).isSome →
          start ∈ g.nodes := by
        rw [Function.update_noteq (Ne.symm hne_start)]
        exact hpstart
      have hQ : ∀ p ∈ s.pq ++ [(cc + (c : WithTop ℝ), e.1)],
          p ∈ s.pq ∨ (p.2 ∈ Cands g start ∧ Reach g start p.2) := by
        intro p hp
        rcases List.mem_append.mp hp with hp | hp
        · exact Or.inl hp
        · simp at hp
          subst hp
          exact Or.inr ⟨hn, reach_step hcur hedge⟩
      cases b <;>
        simp only [Bool.false_eq_true, if_false, if_true, hcc, hcn] <;>
        (try dsimp only) <;>
        right <;>
        split_ifs with hrel <;>
        first
          | exact ⟨_, rfl, rfl, by simp, hQ, hC, hP1, hP2, hP3, hP4⟩
          | exact ⟨_, rfl, rfl, by simp, fun p hp => Or.inl hp, hcosts, hpdom,
              hpnodes, hpreach, hpstart⟩
    · have hnods : e.1 ∉ g.nodes := fun hmem => hn (by simp [Cands, hmem])
      have hcn : s.costs e.1 = none := by
        rcases hcase : s.costs e.1 with - | cn
        · rfl
        · exact absurd ((hcosts e.1).mp (by simp [hcase])) hn
      cases b <;>
        simp only [Bool.false_eq_true, if_false, if_true, hcc, hcn] <;>
        (try dsimp only) <;>
        exact Or.inl ⟨by trivial, hnods⟩

/-- Effect of the whole neighbour loop on everything the invariant
tracks. -/
lemma processEdges_spec {g : RoadGraph} {vt : String} {eh : EdgeHistory}
    {start cur : ℕ} :
    ∀ (es : List (ℕ × ℝ × Metadata)) (s : LoopState),
    (∀ e ∈ es, e ∈ g.get_neighbors cur) →
    start ∈ s.visited →
    (∀ v, (s.costs v).isSome ↔ v ∈ Cands g start) →
    (∀ v, (s.parents v).isSome → v ∈ Cands g start) →
    (∀ v, v ∈ g.nodes → (s.parents v).isSome) →
    (∀ v u, s.parents v = some (some u) → Reach g start v) →
    ((s.parents start).isSome → start ∈ g.nodes) →
    cur ∈ Cands g start → Reach g start cur →
    (processEdges vt eh cur es s = .error .keyError ∧
      ∃ e ∈ g.get_neighbors cur, e.1 ∉ g.nodes) ∨
    (∃ s', processEdges vt eh cur es s = .ok s' ∧
      s'.visited = s.visited ∧
      s'.pq.length ≤ s.pq.length + es.length ∧
      (∀ p ∈ s'.pq, p ∈ s.pq ∨ (p.2 ∈ Cands g start ∧ Reach g start p.2)) ∧
      (∀ v, (s'.costs v).isSome ↔ v ∈ Cands g start) ∧
      (∀ v, (s'.parents v).isSome → v ∈ Cands g start) ∧
      (∀ v, v ∈ g.nodes → (s'.parents v).isSome) ∧
      (∀ v u, s'.parents v = some (some u) → Reach g start v) ∧
      ((s'.parents start).isSome → start ∈ g.nodes)) := by
  intro es
  induction es with
  | nil =>
    intro s _ hstart hcosts hpdom hpnodes hpreach hpstart _ _
    right
    exact ⟨s, rfl, rfl, by simp, fun p hp => Or.inl hp, hcosts, hpdom,
      hpnodes, hpreach, hpstart⟩
  | cons e es ih =>
    intro s hes hstart hcosts hpdom hpnodes hpreach hpstart hcurC hcur
    rcases processEdge_spec hstart hcosts hpdom hpnodes hpreach hpstart hcurC
        hcur (hes e (by simp)) with ⟨herr, hnods⟩ | ⟨s₁, hok, hvis, hlen, hpq,
        hcosts₁, hpdom₁, hpnodes₁, hpreach₁, hpstart₁⟩
    · left
      rw [processEdges, herr]
      exact ⟨rfl, e, hes e (by simp), hnods⟩
    · rcases ih s₁ (fun e' he' => hes e' (by simp [he'])) (hvis ▸ hstart)
          hcosts₁ hpdom₁ hpnodes₁ hpreach₁ hpstart₁ hcurC hcur with
        ⟨herr₂, hw⟩ | ⟨s₂, hok₂, hvis₂, hlen₂, hpq₂, hcosts₂, hpdom₂,
          hpnodes₂, hpreach₂, hpstart₂⟩
      · left
        rw [processEdges, hok]
        exact ⟨herr₂, hw⟩
      · right
        refine ⟨s₂, ?_, hvis₂.trans hvis, ?_, ?_, hcosts₂, hpdom₂,
          hpnodes₂, hpreach₂, hpstart₂⟩
        · rw [processEdges, hok]
          exact hok₂
        · calc s₂.pq.length ≤ s₁.pq.length + es.length := hlen₂
            _ ≤ s.pq.length + 1 + es.length := by omega
            _ = s.pq.length + (e :: es).length := by simp; omega
        · intro p hp
          rcases hpq₂ p hp with hp₁ | hgood
          · rcases hpq p hp₁ with hp₀ | hgood
            · exact Or.inl hp₀
            · exact Or.inr hgood
          · exact Or.inr hgood

/-- The search loop, run with fuel exceeding the variant `Phi`, either
raises `KeyError` (only possible when the graph hands out a neighbour that
is not a node) or terminates normally in a state still satisfying the
invariant.  In particular the fuel bound used by `find_optimal_path` never
runs out. -/
lemma dijkstraLoop_spec {g : RoadGraph} {vt : String} {eh : EdgeHistory}
    {start endN : ℕ} :
    ∀ (fuel : ℕ) (s : LoopState), LoopInv g start s → Phi g start s < fuel →
    (dijkstraLoop g vt eh endN fuel s = .error .keyError ∧
      ∃ cur, ∃ e ∈ g.get_neighbors cur, e.1 ∉ g.nodes) ∨
    (∃ s', dijkstraLoop g vt eh endN fuel s = .ok s' ∧ LoopInv g start s') := by
  intro fuel
  induction fuel with
  | zero => intro s _ h; omega
  | succ n ih =>
    intro s hinv hΦ
    obtain ⟨hpq, hcosts, hpdom, hpnodes, hpreach, hpstart, hstartpq⟩ := hinv
    rcases hpop : popMin s.pq with - | ⟨⟨c, cur⟩, pq'⟩
    · right
      exact ⟨s, dijkstraLoop_empty (by omega) hpop,
        hpq, hcosts, hpdom, hpnodes, hpreach, hpstart, hstartpq⟩
    · obtain ⟨hmem, hlen, hsub⟩ := popMin_spec hpop
      obtain ⟨hcurC, hcurR⟩ := hpq _ hmem
      have hcs : start ∉ s.visited → cur = start := by
        intro h
        have hpop' := hpop
        rw [hstartpq h, popMin_singleton] at hpop'
        simp at hpop'
        exact hpop'.1.2.symm
      by_cases hv : cur ∈ s.visited
      · rw [dijkstraLoop_visited (by omega) hpop hv]
        have hstartvis : start ∈ s.visited := by
          by_contra h
          exact h ((hcs h) ▸ hv)
        have hinv₁ : LoopInv g start { s with pq := pq' } := by
          refine ⟨fun p hp => hpq p (hsub p hp), hcosts, hpdom, hpnodes,
            hpreach, hpstart, fun h => absurd hstartvis h⟩
        have hΦ₁ : Phi g start { s with pq := pq' } < n := by
          unfold Phi at hΦ ⊢
          dsimp only at hΦ ⊢
          omega
        exact ih _ hinv₁ hΦ₁
      · have hstartvis : start ∈ insert cur s.visited := by
          by_cases h : start ∈ s.visited
          · exact Finset.mem_insert_of_mem h
          · rw [hcs h]
            exact Finset.mem_insert_self _ _
        by_cases hgoal : cur = endN
        · rw [dijkstraLoop_goal (by omega) hpop hv hgoal]
          right
          refine ⟨_, rfl, fun p hp => hpq p (hsub p hp), hcosts, hpdom,
            hpnodes, hpreach, hpstart, ?_⟩
          intro h
          exact absurd (hgoal ▸ hstartvis) h
        · rw [dijkstraLoop_explore (by omega) hpop hv hgoal]
          rcases processEdges_spec (g.get_neighbors cur)
              { s with pq := pq', visited := insert cur s.visited,
                       stats := { s.stats with
                                  nodes_explored := s.stats.nodes_explored + 1 } }
              (fun e he => he) hstartvis hcosts hpdom hpnodes hpreach hpstart
              hcurC hcurR with
            ⟨herr, hw⟩ | ⟨s₂, hok, hvis₂, hlen₂, hpq₂, hcosts₂, hpdom₂,
              hpnodes₂, hpreach₂, hpstart₂⟩
          · rw [herr]
            exact Or.inl ⟨rfl, cur, hw⟩
          · rw [hok]
            dsimp only
            have hcard : ((Cands g start) \ insert cur s.visited).card + 1 =
                ((Cands g start) \ s.visited).card := by
              rw [Finset.sdiff_insert]
              rw [Finset.card_erase_of_mem (Finset.mem_sdiff.mpr ⟨hcurC, hv⟩)]
              have : 0 < ((Cands g start) \ s.visited).card :=
                Finset.card_pos.mpr ⟨cur, Finset.mem_sdiff.mpr ⟨hcurC, hv⟩⟩
              omega
            have hmul : (Edeg g start + 1) * (((Cands g start) \ s.visited).card) =
                (Edeg g start + 1) * (((Cands g start) \ insert cur s.visited).card) +
                  (Edeg g start + 1) := by
              rw [← hcard, Nat.mul_add, Nat.mul_one]
            have hdeg : (g.get_neighbors cur).length ≤ Edeg g start :=
              deg_le_Edeg hcurC
            have hinv₂ : LoopInv g start s₂ := by
              refine ⟨?_, hcosts₂, hpdom₂, hpnodes₂, hpreach₂, hpstart₂, ?_⟩
              · intro p hp
                rcases hpq₂ p hp with hp₁ | hgood
                · exact hpq p (hsub p hp₁)
                · exact hgood
              · intro h
                rw [hvis₂] at h
                exact absurd hstartvis h
            have hΦ₂ : Phi g start s₂ < n := by
              unfold Phi at hΦ ⊢
              rw [hvis₂]
              dsimp only at hΦ ⊢
              dsimp only at hlen₂
              omega
            exact ih _ hinv₂ hΦ₂

lemma reconstruct_path_eq (walk_fuel : ℕ) (parents : ℕ → Option (Option ℕ))
    (start endN : ℕ) :
    reconstruct_path walk_fuel parents start endN =
      match parents endN with
      | none => .error .keyError
      | some p =>
        if p = none ∧ endN ≠ start then .ok []
        else walkParents parents walk_fuel (some endN) [] := rfl

/-- The state `find_optimal_path` builds before entering the loop
satisfies the invariant. -/
lemma initial_LoopInv (g : RoadGraph) (start : ℕ) :
    LoopInv g start
      { costs := Function.update (fun v => if v ∈ g.nodes then some ⊤ else none)
          start (some 0),
        parents := fun v => if v ∈ g.nodes then some none else none,
        pq := [((0 : WithTop ℝ), start)], visited := ∅, stats := stats0 } := by
  refine ⟨?_, ?_, ?_, ?_, ?_, ?_, ?_⟩
  · intro p hp
    simp at hp
    subst hp
    exact ⟨Finset.mem_insert_self _ _, Relation.ReflTransGen.refl⟩
  · intro v
    dsimp only
    rcases eq_or_ne v start with rfl | hvne
    · simp [Function.update_same, Cands]
    · rw [Function.update_noteq hvne]
      simp [Cands, hvne]
  · intro v
    dsimp only
    split_ifs with h
    · intro _
      exact Finset.mem_insert_of_mem (by simpa using h)
    · simp
  · intro v hv
    simp [hv]
  · intro v u
    dsimp only
    split_ifs <;> simp
  · dsimp only
    split_ifs with h
    · intro _
      exact h
    · simp
  · intro _
    rfl

/-- The fuel `find_optimal_path` supplies strictly exceeds the initial
variant. -/
lemma initial_Phi_lt (g : RoadGraph) (start : ℕ) :
    Phi g start
      { costs := Function.update (fun v => if v ∈ g.nodes then some ⊤ else none)
          start (some 0),
        parents := fun v => if v ∈ g.nodes then some none else none,
        pq := [((0 : WithTop ℝ), start)], visited := ∅, stats := stats0 } <
      (Edeg g start + 1) * (g.nodes.length + 1) + 2 := by
  unfold Phi
  dsimp only
  rw [Finset.sdiff_empty]
  simp only [List.length_singleton]
  have hcard : (Cands g start).card ≤ g.nodes.length + 1 := by
    refine le_trans (Finset.card_insert_le _ _) ?_
    have := g.nodes.toFinset_card_le
    omega
  have := Nat.mul_le_mul_left (Edeg g start + 1) hcard
  omega

/-- Claim C6.  For every well-formed graph (neighbours are nodes) whose end
node exists but is unreachable from the start node, `find_optimal_path`
returns the no-path `SearchResult`: empty path and infinite cost, with no
error during parent-link reconstruction — path existence is decided by the
parent links, not by the cost table. -/
theorem unreachable_end_no_path (g : RoadGraph) (vt : String) (eh : EdgeHistory)
    (start endN : ℕ) (hstart : start ∈ g.nodes) (hend : endN ∈ g.nodes)
    (hclosed : Closed g) (hunreach : ¬ Reach g start endN) :
    ∃ st, find_optimal_path g vt eh start endN = .ok ([], ⊤, st) := by
  simp only [find_optimal_path]
  rw [show ((List.map (fun u => (g.get_neighbors u).length)
      (start :: g.nodes)).sum + 1) * (g.nodes.length + 1) + 2 =
    (Edeg g start + 1) * (g.nodes.length + 1) + 2 from rfl]
  rcases @dijkstraLoop_spec g vt eh start endN _ _
      (initial_LoopInv g start) (initial_Phi_lt g start) with
    ⟨-, cur, e, he, hnods⟩ | ⟨s', hok, hinv'⟩
  · exact absurd (hclosed cur e he) hnods
  · rw [hok]
    dsimp only
    obtain ⟨-, hcosts, -, hpnodes, hpreach, -, -⟩ := hinv'
    have hpe : s'.parents endN = some none := by
      obtain ⟨p, hp⟩ := Option.isSome_iff_exists.mp (hpnodes endN hend)
      cases p with
      | none => exact hp
      | some u => exact absurd (hpreach endN u hp) hunreach
    have hne : endN ≠ start := by
      rintro rfl
      exact hunreach Relation.ReflTransGen.refl
    rw [reconstruct_path_eq, hpe]
    dsimp only
    rw [if_pos ⟨rfl, hne⟩]
    obtain ⟨cend, hcend⟩ := Option.isSome_iff_exists.mp
      ((hcosts endN).mpr (Finset.mem_insert_of_mem (by simpa using hend)))
    rw [hcend]
    simp

/-- Witness for C6: a two-node graph with no edges. -/
theorem unreachable_end_no_path_witness :
    ∃ st, find_optimal_path ⟨[0, 1], fun _ => []⟩ "boda" (fun _ => none) 0 1 =
      .ok ([], ⊤, st) :=
  unreachable_end_no_path ⟨[0, 1], fun _ => []⟩ "boda" (fun _ => none) 0 1
    (by simp) (by simp) (by intro u e he; simp at he)
    (by
      intro h
      rcases (Relation.reflTransGen_iff_eq (by simp)).mp h)

/-- Claim C7, amended.  A call whose END node is absent from the graph
fails with a `KeyError` reported to the caller (never a silent no-path
result); but a call whose START node is absent, over a graph whose
neighbour enumeration yields nothing for it, silently returns the no-path
result — see the counterexample. -/
theorem unknown_end_raises (g : RoadGraph) (vt : String) (eh : EdgeHistory)
    (start endN : ℕ) (hend : endN ∉ g.nodes) :
    find_optimal_path g vt eh start endN = .error .keyError := by
  simp only [find_optimal_path]
  rw [show ((List.map (fun u => (g.get_neighbors u).length)
      (start :: g.nodes)).sum + 1) * (g.nodes.length + 1) + 2 =
    (Edeg g start + 1) * (g.nodes.length + 1) + 2 from rfl]
  rcases @dijkstraLoop_spec g vt eh start endN _ _
      (initial_LoopInv g start) (initial_Phi_lt g start) with
    ⟨herr, -⟩ | ⟨s', hok, hinv'⟩
  · rw [herr]
  · rw [hok]
    dsimp only
    obtain ⟨-, -, hpdom, -, -, hpstart, -⟩ := hinv'
    have hpe : s'.parents endN = none := by
      rcases hcase : s'.parents endN with - | p
      · rfl
      · exfalso
        have hC : endN ∈ Cands g start := hpdom endN (by simp [hcase])
        rcases Finset.mem_insert.mp hC with rfl | hmem
        · exact hend (hpstart (by simp [hcase]))
        · exact hend (by simpa using hmem)
    rw [reconstruct_path_eq, hpe]

/-- Witness for the amended C7: a concrete one-node graph with an unknown
end node. -/
theorem unknown_end_raises_witness :
    find_optimal_path ⟨[0], fun _ => []⟩ "boda" (fun _ => none) 0 5 =
      .error .keyError :=
  unknown_end_raises ⟨[0], fun _ => []⟩ "boda" (fun _ => none) 0 5 (by simp)

lemma dijkstraLoop_empty_pq {g : RoadGraph} {vt : String} {eh : EdgeHistory}
    {endN fuel : ℕ} (hfuel : 0 < fuel) (costs : ℕ → Option (WithTop ℝ))
    (parents : ℕ → Option (Option ℕ)) (visited : Finset ℕ) (stats : Stats) :
    dijkstraLoop g vt eh endN fuel
      { costs := costs, parents := parents, pq := [], visited := visited,
        stats := stats } =
      .ok { costs := costs, parents := parents, pq := [], visited := visited,
            stats := stats } :=
  dijkstraLoop_empty hfuel rfl

/-- Counterexample to claim C7 as stated: with start node 5 absent from the
one-node graph `{0}` (whose neighbour enumeration is empty everywhere) and
end node 0 present, the call does not fail — it silently returns the
no-path result (empty path, infinite cost). -/
theorem unknown_start_silent_no_path :
    find_optimal_path ⟨[0], fun _ => []⟩ "boda" (fun _ => none) 5 0 =
      .ok ([], ⊤, { stats0 with nodes_explored := 1 }) := by
  simp only [find_optimal_path]
  rw [dijkstraLoop_explore (by norm_num) (popMin_singleton _) (by simp)
    (by norm_num)]
  dsimp only
  rw [processEdges]
  dsimp only
  rw [dijkstraLoop_empty_pq (by simp)]
  dsimp only
  rw [reconstruct_path_eq]
  simp [Function.update_apply, stats0]

end AdaptiveDijkstra
